import Mathlib

/-!
Verification of the RGA (replicated growable array) collaborative text
editor.  The data model and operations below are shallow embeddings of the
TypeScript source: the node structure, the merge function
`applyOperation` and its variants, the causal positioning function
`findInsertPosition`, and the edit entry points `handleInsert` and
`handleDelete`.  Timestamps are modelled as naturals, node ids and
authors as strings, and the nullable `previousId` as `Option String`.
-/

/-- Embedding of the `RGANode` interface (src/index.tsx lines 7-14). -/
structure RGANode where
  id : String
  value : String
  timestamp : Nat
  previousId : Option String
  removed : Bool
  author : String
deriving Repr, DecidableEq, Inhabited

/-- Model of JS `Array.prototype.findIndex` (with `-1` rendered as `none`):
index of the first element satisfying the test. -/
def findIdxNode (p : RGANode → Bool) : List RGANode → Option Nat
  | [] => none
  | n :: rest => if p n then some 0 else (findIdxNode p rest).map (fun i => i + 1)

/-- Embedding of `visibleNodes` (src/index.tsx lines 40-41):
`nodes.filter(n => !n.removed)`. -/
def visibleNodes (nodes : List RGANode) : List RGANode :=
  nodes.filter (fun n => !n.removed)

/-- Count of the while loop in `applyOperation` (src/unnamed/part_001 lines
671-675): how many leading elements of the suffix share `previousId` with the
incoming node and have a strictly smaller timestamp.  The insertion index is
advanced by exactly this amount. -/
def siblingSkip (prev : Option String) (ts : Nat) : List RGANode → Nat
  | [] => 0
  | n :: rest =>
    if n.previousId = prev ∧ n.timestamp < ts then siblingSkip prev ts rest + 1 else 0

/-- Embedding of the merge engine `applyOperation` of src/unnamed/part_001
lines 651-682: last-write-wins check on an existing id first, then predecessor
lookup, then insertion after the predecessor past the contiguous run of
earlier-timestamped siblings. -/
def applyOperation (nodes : List RGANode) (newNode : RGANode) : List RGANode :=
  match findIdxNode (fun n => decide (n.id = newNode.id)) nodes with
  | some existingIndex =>
    if (nodes.getD existingIndex default).timestamp ≥ newNode.timestamp then nodes
    else nodes.set existingIndex newNode
  | none =>
    match findIdxNode (fun n => decide (some n.id = newNode.previousId)) nodes with
    | none => nodes
    | some prevIdx =>
      let insertIndex := prevIdx + 1 +
        siblingSkip newNode.previousId newNode.timestamp (nodes.drop (prevIdx + 1))
      nodes.take insertIndex ++ newNode :: nodes.drop insertIndex

/-- Embedding of the second, textually identical copy of `applyOperation` in
src/unnamed/part_001 lines 1517-1548. -/
def applyOperationEx (nodes : List RGANode) (newNode : RGANode) : List RGANode :=
  match findIdxNode (fun n => decide (n.id = newNode.id)) nodes with
  | some existingIndex =>
    if (nodes.getD existingIndex default).timestamp ≥ newNode.timestamp then nodes
    else nodes.set existingIndex newNode
  | none =>
    match findIdxNode (fun n => decide (some n.id = newNode.previousId)) nodes with
    | none => nodes
    | some prevIdx =>
      let insertIndex := prevIdx + 1 +
        siblingSkip newNode.previousId newNode.timestamp (nodes.drop (prevIdx + 1))
      nodes.take insertIndex ++ newNode :: nodes.drop insertIndex

/-- Embedding of `applyOperation` of src/index.tsx lines 51-76: predecessor
lookup first (return unchanged if unresolvable), then the last-write-wins
check, then a plain insert immediately after the predecessor, with no sibling
timestamp scan. -/
def applyOperationIdx (nodes : List RGANode) (newNode : RGANode) : List RGANode :=
  match findIdxNode (fun n => decide (some n.id = newNode.previousId)) nodes with
  | none => nodes
  | some prevIdx =>
    let insertIndex := prevIdx + 1
    match findIdxNode (fun n => decide (n.id = newNode.id)) nodes with
    | some existingIndex =>
      if (nodes.getD existingIndex default).timestamp ≥ newNode.timestamp then nodes
      else nodes.set existingIndex newNode
    | none => nodes.take insertIndex ++ newNode :: nodes.drop insertIndex

/-- Embedding of the early `applyOperation` variant of src/unnamed/part_001
lines 47-70: `insertIndex = findIndex(previousId) + 1`, returning the list
unchanged when that index is 0 (predecessor absent), then the last-write-wins
check, then a plain insert at `insertIndex`. -/
def applyOperationV0 (nodes : List RGANode) (newNode : RGANode) : List RGANode :=
  let insertIndex :=
    match findIdxNode (fun n => decide (some n.id = newNode.previousId)) nodes with
    | none => 0
    | some i => i + 1
  if insertIndex = 0 then nodes
  else
    match findIdxNode (fun n => decide (n.id = newNode.id)) nodes with
    | some existingIndex =>
      if (nodes.getD existingIndex default).timestamp ≥ newNode.timestamp then nodes
      else nodes.set existingIndex newNode
    | none => nodes.take insertIndex ++ newNode :: nodes.drop insertIndex

/-- Embedding of `findInsertPosition` (src/index.tsx lines 43-49, same code at
src/unnamed/part_001 lines 643-649).  The JS fallback `targetNode?.id ||
'root'` yields `'root'` both when the index is out of range and when the
target id is the empty string (a falsy value). -/
def findInsertPosition (position : Nat) (nodes : List RGANode) : String :=
  let vnodes := visibleNodes nodes
  if position = 0 then "root"
  else
    match vnodes[position]? with
    | some targetNode => if targetNode.id = "" then "root" else targetNode.id
    | none => "root"

/-- Embedding of the node construction and local apply of `handleInsert`
(src/index.tsx lines 95-119, src/unnamed/part_001 lines 701-725), with the
random id and `Date.now()` passed in as parameters.  Returns the constructed
node together with the locally updated state. -/
def handleInsert (nodes : List RGANode) (value : String) (position : Nat)
    (author : String) (freshId : String) (now : Nat) : RGANode × List RGANode :=
  let previousId := findInsertPosition position nodes
  let newNode : RGANode :=
    { id := freshId, value := value, timestamp := now,
      previousId := some previousId, removed := false, author := author }
  (newNode, applyOperation nodes newNode)

/-- Embedding of `handleDelete` (src/index.tsx lines 121-145,
src/unnamed/part_001 lines 727-762): look up the visible node at
`position + 1` (skipping the root), and if present produce a tombstoned copy
(same id, `removed = true`, fresh timestamp) together with the locally
updated state. -/
def handleDelete (nodes : List RGANode) (position : Nat) (now : Nat) :
    Option (RGANode × List RGANode) :=
  match (visibleNodes nodes)[position + 1]? with
  | none => none
  | some targetNode =>
    let updatedNode : RGANode :=
      { targetNode with removed := true, timestamp := now }
    some (updatedNode, applyOperation nodes updatedNode)

/-- Visible sequence of a replica: the non-tombstoned, non-root nodes in
order (spec section 4.4, rendering code in src/index.tsx lines 168-277). -/
def visibleSequence (nodes : List RGANode) : List RGANode :=
  (visibleNodes nodes).filter (fun n => n.id != "root")

/-- Root sentinel node (src/index.tsx lines 27-38). -/
def rootNode0 : RGANode :=
  { id := "root", value := "", timestamp := 0, previousId := none,
    removed := false, author := "user1" }

/-- Replica A of the concurrent delete-versus-insert scenario
(src/unnamed/part_001 lines 398-447): root plus the five characters of
hello, all tombstoned with timestamps 1006-1010. -/
def scenario2A : List RGANode :=
  [rootNode0,
   { id := "h1", value := "h", timestamp := 1006, previousId := some "root",
     removed := true, author := "user1" },
   { id := "e1", value := "e", timestamp := 1007, previousId := some "h1",
     removed := true, author := "user1" },
   { id := "l1", value := "l", timestamp := 1008, previousId := some "e1",
     removed := true, author := "user1" },
   { id := "l2", value := "l", timestamp := 1009, previousId := some "l1",
     removed := true, author := "user1" },
   { id := "o1", value := "o", timestamp := 1010, previousId := some "l2",
     removed := true, author := "user1" }]

/-- Replica B of the concurrent delete-versus-insert scenario
(src/unnamed/part_001 lines 448-505): hello with timestamps 1000-1004 plus
the inserted node X with timestamp 1005 whose previousId is the third
character. -/
def scenario2B : List RGANode :=
  [rootNode0,
   { id := "h1", value := "h", timestamp := 1000, previousId := some "root",
     removed := false, author := "user1" },
   { id := "e1", value := "e", timestamp := 1001, previousId := some "h1",
     removed := false, author := "user1" },
   { id := "l1", value := "l", timestamp := 1002, previousId := some "e1",
     removed := false, author := "user1" },
   { id := "x1", value := "X", timestamp := 1005, previousId := some "l1",
     removed := false, author := "user2" },
   { id := "l2", value := "l", timestamp := 1003, previousId := some "l1",
     removed := false, author := "user1" },
   { id := "o1", value := "o", timestamp := 1004, previousId := some "l2",
     removed := false, author := "user1" }]

/-- Shared state for the commutativity counterexample: root plus one child c
of the root. -/
def commuteState : List RGANode :=
  [rootNode0,
   { id := "c", value := "c", timestamp := 5, previousId := some "root",
     removed := false, author := "user1" }]

/-- Fresh insert after the root, timestamp 10. -/
def commuteA : RGANode :=
  { id := "a", value := "a", timestamp := 10, previousId := some "root",
    removed := false, author := "user1" }

/-- Fresh insert after c, timestamp 6. -/
def commuteB : RGANode :=
  { id := "b", value := "b", timestamp := 6, previousId := some "c",
    removed := false, author := "user2" }

/-- C1: the merge function is not commutative, even for two operations whose
previousId targets are both present in the state.  On the state
[root, c(ts 5)], applying the fresh insert a (after root, ts 10) and then b
(after c, ts 6) yields [root, c, b, a], while the opposite delivery order
yields [root, c, a, b]: the sibling-timestamp scan moves a past c, and b then
lands on a different side of a depending on whether a is already present. -/
theorem commutativity_counterexample_eval :
    applyOperation (applyOperation commuteState commuteA) commuteB ≠
      applyOperation (applyOperation commuteState commuteB) commuteA ∧
    applyOperation (applyOperation commuteState commuteA) commuteB =
      [rootNode0, commuteState.getD 1 default, commuteB, commuteA] ∧
    applyOperation (applyOperation commuteState commuteB) commuteA =
      [rootNode0, commuteState.getD 1 default, commuteA, commuteB] := by
  refine ⟨?_, ?_, ?_⟩ <;> decide

/-- C5 counterexample: after each replica of scenario 2 applies every node of
the other replica through the merge function, the visible (non-tombstoned,
non-root) sequence is not empty on either side, contradicting the claim that
it is empty on both. -/
theorem scenario2_visible_not_empty :
    ¬(visibleSequence (scenario2B.foldl applyOperation scenario2A) = [] ∧
      visibleSequence (scenario2A.foldl applyOperation scenario2B) = []) := by
  decide

/-- C5 amended: after the mutual merge in scenario 2, both replicas converge
to the same full state, and the visible sequence on both sides is the single
surviving node X (the five hello characters are tombstoned; X, never
tombstoned, remains). -/
theorem scenario2_merged_visible_X :
    (visibleSequence (scenario2B.foldl applyOperation scenario2A)).map
        RGANode.value = ["X"] ∧
    (visibleSequence (scenario2A.foldl applyOperation scenario2B)).map
        RGANode.value = ["X"] ∧
    scenario2B.foldl applyOperation scenario2A =
      scenario2A.foldl applyOperation scenario2B := by
  refine ⟨?_, ?_, ?_⟩ <;> decide

/-- C9 counterexample: on the state holding only the root, the visible index
5 does not address any position in the (empty) visible sequence, yet the
insert operation does not return none and does change the local state: the
constructed node is applied, so the claim that no local apply happens fails. -/
theorem invalid_index_insert_still_applies :
    (handleInsert [rootNode0] "X" 5 "user1" "n1" 100).2 ≠ [rootNode0] ∧
    (handleInsert [rootNode0] "X" 5 "user1" "n1" 100).1.previousId =
      some "root" := by
  refine ⟨?_, ?_⟩ <;> decide

/-- C10 counterexample: the merge variants are not extensionally equal.  On
the state [root, c(previousId root, ts 5)] and a fresh insert after the root
with timestamp 9, the part_001 merge advances past the earlier-timestamped
sibling c while the index.tsx merge inserts immediately after the root. -/
theorem apply_variants_differ :
    applyOperation commuteState
        { id := "z", value := "z", timestamp := 9, previousId := some "root",
          removed := false, author := "user2" } ≠
      applyOperationIdx commuteState
        { id := "z", value := "z", timestamp := 9, previousId := some "root",
          removed := false, author := "user2" } := by
  decide

/-- C10 amended: the two copies of applyOperation in src/unnamed/part_001
(lines 651-682 and 1517-1548) are extensionally equal to each other, and the
src/index.tsx variant is extensionally equal to the early variant at
src/unnamed/part_001 lines 47-70; the two groups differ. -/
theorem apply_variant_groups_equal :
    (∀ nodes newNode, applyOperation nodes newNode = applyOperationEx nodes newNode) ∧
    (∀ nodes newNode, applyOperationIdx nodes newNode = applyOperationV0 nodes newNode) := by
  constructor
  · intro nodes newNode
    rfl
  · intro nodes newNode
    unfold applyOperationIdx applyOperationV0
    cases h : findIdxNode (fun n => decide (some n.id = newNode.previousId)) nodes with
    | none => simp
    | some i => simp

/-- A find over a list yields none exactly when every element fails the test. -/
theorem findIdxNode_eq_none {p : RGANode → Bool} {l : List RGANode} :
    findIdxNode p l = none ↔ ∀ x ∈ l, p x = false := by
  induction l with
  | nil => simp [findIdxNode]
  | cons a l ih =>
    by_cases h : p a
    · simp [findIdxNode, h]
    · simp [findIdxNode, h, ih]

/-- A successful find decomposes the list at the first matching element. -/
theorem findIdxNode_eq_some {p : RGANode → Bool} {l : List RGANode} {i : Nat}
    (h : findIdxNode p l = some i) :
    ∃ u x t, l = u ++ x :: t ∧ u.length = i ∧ p x = true ∧ ∀ y ∈ u, p y = false := by
  induction l generalizing i with
  | nil => simp [findIdxNode] at h
  | cons a l ih =>
    by_cases ha : p a
    · simp only [findIdxNode, ha, if_true, Option.some.injEq] at h
      exact ⟨[], a, l, rfl, by simp [h], ha, by simp⟩
    · simp only [findIdxNode, if_neg ha, Option.map_eq_some'] at h
      obtain ⟨j, hj, hji⟩ := h
      obtain ⟨u, x, t, rfl, hlen, hx, hu⟩ := ih hj
      refine ⟨a :: u, x, t, rfl, by simp [hlen, hji.symm], hx, ?_⟩
      intro y hy
      rcases List.mem_cons.mp hy with rfl | hy
      · exact Bool.eq_false_iff.mpr ha
      · exact hu y hy

/-- A find over a list whose prefix fails and whose next element matches
returns the length of the prefix. -/
theorem findIdxNode_append_match {p : RGANode → Bool} {u : List RGANode}
    (hu : ∀ y ∈ u, p y = false) {x : RGANode} (hx : p x = true) (t : List RGANode) :
    findIdxNode p (u ++ x :: t) = some u.length := by
  induction u with
  | nil => simp [findIdxNode, hx]
  | cons a u ih =>
    have ha : p a = false := hu a (by simp)
    have ih2 := ih (fun y hy => hu y (by simp [hy]))
    simp [findIdxNode, ha, ih2]

/-- Take up to an offset inside the tail of a split list. -/
theorem takeInsertSplit (u : List RGANode) (x : RGANode) (t : List RGANode) (k : Nat) :
    (u ++ x :: t).take (u.length + 1 + k) = u ++ x :: t.take k := by
  induction u with
  | nil =>
    have h0 : ([] : List RGANode).length + 1 + k = k + 1 := by
      simp only [List.length_nil]
      omega
    rw [h0]
    simp [List.take_succ_cons]
  | cons a u ih =>
    have h1 : (a :: u).length + 1 + k = (u.length + 1 + k) + 1 := by
      simp [List.length_cons]
      omega
    rw [h1]
    simp only [List.cons_append, List.take_succ_cons, ih]

/-- Drop past an offset inside the tail of a split list. -/
theorem dropInsertSplit (u : List RGANode) (x : RGANode) (t : List RGANode) (k : Nat) :
    (u ++ x :: t).drop (u.length + 1 + k) = t.drop k := by
  induction u with
  | nil =>
    have h0 : ([] : List RGANode).length + 1 + k = k + 1 := by
      simp only [List.length_nil]
      omega
    rw [h0]
    simp [List.drop_succ_cons]
  | cons a u ih =>
    have h1 : (a :: u).length + 1 + k = (u.length + 1 + k) + 1 := by
      simp [List.length_cons]
      omega
    rw [h1]
    simp only [List.cons_append, List.drop_succ_cons, ih]

/-- Element read at the split point of a split list. -/
theorem getDSplit (u : List RGANode) (x : RGANode) (t : List RGANode) (d : RGANode) :
    (u ++ x :: t).getD u.length d = x := by
  induction u with
  | nil => simp
  | cons a u ih =>
    simp only [List.cons_append, List.length_cons, List.getD_cons_succ]
    exact ih

/-- Writing at the split point of a split list. -/
theorem setSplit (u : List RGANode) (x v : RGANode) (t : List RGANode) :
    (u ++ x :: t).set u.length v = u ++ v :: t := by
  induction u with
  | nil => simp
  | cons a u ih => simp [ih]

/-- The sibling scan never runs past the end of the suffix. -/
theorem siblingSkip_le (prev : Option String) (ts : Nat) (t : List RGANode) :
    siblingSkip prev ts t ≤ t.length := by
  induction t with
  | nil => simp [siblingSkip]
  | cons a t ih =>
    by_cases h : a.previousId = prev ∧ a.timestamp < ts
    · simp only [siblingSkip, if_pos h, List.length_cons]
      omega
    · simp only [siblingSkip, if_neg h, List.length_cons]
      omega

/-- Every element the sibling scan passes shares the previousId and has a
strictly smaller timestamp. -/
theorem siblingSkip_take (prev : Option String) (ts : Nat) (t : List RGANode) :
    ∀ x ∈ t.take (siblingSkip prev ts t),
      x.previousId = prev ∧ x.timestamp < ts := by
  induction t with
  | nil => simp
  | cons a t ih =>
    by_cases h : a.previousId = prev ∧ a.timestamp < ts
    · simp only [siblingSkip, if_pos h, List.take_succ_cons]
      intro x hx
      rcases List.mem_cons.mp hx with rfl | hx
      · exact h
      · exact ih x hx
    · simp [siblingSkip, if_neg h]

/-- The sibling scan stops at the end of the list or at the first element
that breaks the run condition. -/
theorem siblingSkip_stop (prev : Option String) (ts : Nat) (t : List RGANode) :
    t.drop (siblingSkip prev ts t) = [] ∨
    ∃ c r, t.drop (siblingSkip prev ts t) = c :: r ∧
      ¬(c.previousId = prev ∧ c.timestamp < ts) := by
  induction t with
  | nil => simp [siblingSkip]
  | cons a t ih =>
    by_cases h : a.previousId = prev ∧ a.timestamp < ts
    · simpa only [siblingSkip, if_pos h, List.drop_succ_cons] using ih
    · right
      exact ⟨a, t, by simp [siblingSkip, if_neg h], h⟩

/-- The sibling scan advances over an element that satisfies the run
condition. -/
theorem siblingSkip_cons_pass {c : RGANode} {prev : Option String} {ts : Nat}
    (h : c.previousId = prev ∧ c.timestamp < ts) (r : List RGANode) :
    siblingSkip prev ts (c :: r) = siblingSkip prev ts r + 1 := by
  simp [siblingSkip, if_pos h]

/-- The sibling scan passes over a whole prefix that satisfies the run
condition. -/
theorem siblingSkip_append (prev : Option String) (ts : Nat) {w : List RGANode}
    (hw : ∀ x ∈ w, x.previousId = prev ∧ x.timestamp < ts) (r : List RGANode) :
    siblingSkip prev ts (w ++ r) = w.length + siblingSkip prev ts r := by
  induction w with
  | nil => simp
  | cons a w ih =>
    rw [List.cons_append, siblingSkip_cons_pass (hw a (by simp)),
      ih (fun x hx => hw x (by simp [hx])), List.length_cons]
    omega

/-- The sibling scan stops immediately at an element that breaks the run
condition. -/
theorem siblingSkip_cons_fail {c : RGANode} {prev : Option String} {ts : Nat}
    (h : ¬(c.previousId = prev ∧ c.timestamp < ts)) (r : List RGANode) :
    siblingSkip prev ts (c :: r) = 0 := by
  simp [siblingSkip, if_neg h]

/-- C4: the merge function is idempotent: applying the same operation twice
yields the same state as applying it once
(src/unnamed/part_001 lines 651-682). -/
theorem applyOperation_idempotent :
    ∀ s op, applyOperation (applyOperation s op) op = applyOperation s op := by
  intro s op
  cases h1 : findIdxNode (fun n => decide (n.id = op.id)) s with
  | some i =>
    obtain ⟨u, x, t, rfl, hlen, hx, hu⟩ := findIdxNode_eq_some h1
    have hgd : (u ++ x :: t).getD i default = x := by
      rw [← hlen]
      exact getDSplit u x t default
    by_cases hts : x.timestamp ≥ op.timestamp
    · have hA : applyOperation (u ++ x :: t) op = u ++ x :: t := by
        simp only [applyOperation, h1, hgd, if_pos hts]
      rw [hA]
      exact hA
    · have hA : applyOperation (u ++ x :: t) op = u ++ op :: t := by
        simp only [applyOperation, h1, hgd, if_neg hts]
        rw [← hlen]
        exact setSplit u x op t
      have hfind2 : findIdxNode (fun n => decide (n.id = op.id)) (u ++ op :: t) =
          some u.length :=
        findIdxNode_append_match hu (by simp) t
      rw [hA]
      simp only [applyOperation, hfind2, getDSplit, ge_iff_le, le_refl, if_pos]
  | none =>
    cases h2 : findIdxNode (fun n => decide (some n.id = op.previousId)) s with
    | none =>
      have hA : applyOperation s op = s := by
        simp only [applyOperation, h1, h2]
      rw [hA]
      exact hA
    | some p =>
      obtain ⟨u, pn, t, rfl, hlen, hpn, hu⟩ := findIdxNode_eq_some h2
      have hall : ∀ y ∈ u ++ pn :: t, decide (y.id = op.id) = false :=
        findIdxNode_eq_none.mp h1
      have hdrop : (u ++ pn :: t).drop (p + 1) = t := by
        have h0 : p + 1 = u.length + 1 + 0 := by omega
        rw [h0, dropInsertSplit]
        simp
      have htake : (u ++ pn :: t).take
          (p + 1 + siblingSkip op.previousId op.timestamp t) =
          u ++ pn :: t.take (siblingSkip op.previousId op.timestamp t) := by
        have h0 : p + 1 + siblingSkip op.previousId op.timestamp t =
            u.length + 1 + siblingSkip op.previousId op.timestamp t := by omega
        rw [h0, takeInsertSplit]
      have hdrop2 : (u ++ pn :: t).drop
          (p + 1 + siblingSkip op.previousId op.timestamp t) =
          t.drop (siblingSkip op.previousId op.timestamp t) := by
        have h0 : p + 1 + siblingSkip op.previousId op.timestamp t =
            u.length + 1 + siblingSkip op.previousId op.timestamp t := by omega
        rw [h0, dropInsertSplit]
      have hA : applyOperation (u ++ pn :: t) op =
          (u ++ pn :: t.take (siblingSkip op.previousId op.timestamp t)) ++
            op :: t.drop (siblingSkip op.previousId op.timestamp t) := by
        simp only [applyOperation, h1, h2, hdrop, htake, hdrop2]
      have hu2 : ∀ y ∈ u ++ pn :: t.take (siblingSkip op.previousId op.timestamp t),
          decide (y.id = op.id) = false := by
        intro y hy
        apply hall
        rcases List.mem_append.mp hy with hy | hy
        · exact List.mem_append_left _ hy
        · rcases List.mem_cons.mp hy with rfl | hy
          · exact List.mem_append_right _ (List.mem_cons_self _ _)
          · exact List.mem_append_right _
              (List.mem_cons_of_mem _ (List.take_subset _ _ hy))
      have hfind2 : findIdxNode (fun n => decide (n.id = op.id))
          ((u ++ pn :: t.take (siblingSkip op.previousId op.timestamp t)) ++
            op :: t.drop (siblingSkip op.previousId op.timestamp t)) =
          some (u ++ pn :: t.take (siblingSkip op.previousId op.timestamp t)).length :=
        findIdxNode_append_match hu2 (by simp) _
      rw [hA]
      simp only [applyOperation, hfind2, getDSplit, ge_iff_le, le_refl, if_pos]

/-- C6: an incoming node whose id is absent and whose previousId does not
resolve to any node in the state is silently dropped: the merge returns the
state unchanged (src/unnamed/part_001 lines 663-665, src/index.tsx lines
51-54). -/
theorem unresolvable_predecessor_noop (s : List RGANode) (inc : RGANode)
    (hid : ∀ n ∈ s, n.id ≠ inc.id)
    (hprev : ∀ n ∈ s, some n.id ≠ inc.previousId) :
    applyOperation s inc = s := by
  have h1 : findIdxNode (fun n => decide (n.id = inc.id)) s = none :=
    findIdxNode_eq_none.mpr (fun x hx => by simp [hid x hx])
  have h2 : findIdxNode (fun n => decide (some n.id = inc.previousId)) s = none :=
    findIdxNode_eq_none.mpr (fun x hx => by simp [hprev x hx])
  simp only [applyOperation, h1, h2]

/-- C6 witness at a concrete input. -/
theorem unresolvable_predecessor_noop_witness :
    applyOperation [rootNode0]
      { id := "w", value := "w", timestamp := 3, previousId := some "gone",
        removed := false, author := "user2" } = [rootNode0] :=
  unresolvable_predecessor_noop [rootNode0] _ (by decide) (by decide)

/-- C3: when a node with the incoming id already exists at the first matching
index, the merge discards the incoming node if the existing timestamp is
greater or equal, and otherwise replaces the existing node in place, leaving
every other node and the order unchanged (src/unnamed/part_001 lines
651-661). -/
theorem lww_existing_id (s : List RGANode) (inc : RGANode) (i : Nat)
    (h : findIdxNode (fun n => decide (n.id = inc.id)) s = some i) :
    (inc.timestamp ≤ (s.getD i default).timestamp → applyOperation s inc = s) ∧
    ((s.getD i default).timestamp < inc.timestamp →
      ∃ u x t, s = u ++ x :: t ∧ u.length = i ∧ x.id = inc.id ∧
        applyOperation s inc = u ++ inc :: t) := by
  obtain ⟨u, x, t, rfl, hlen, hx, hu⟩ := findIdxNode_eq_some h
  have hgd : (u ++ x :: t).getD i default = x := by
    rw [← hlen]
    exact getDSplit u x t default
  constructor
  · intro hts
    rw [hgd] at hts
    simp only [applyOperation, h, hgd, ge_iff_le, if_pos hts]
  · intro hts
    rw [hgd] at hts
    refine ⟨u, x, t, rfl, hlen, by simpa using hx, ?_⟩
    have hnot : ¬ x.timestamp ≥ inc.timestamp := by omega
    simp only [applyOperation, h, hgd, ge_iff_le, if_neg (by omega : ¬ inc.timestamp ≤ x.timestamp)]
    rw [← hlen]
    exact setSplit u x inc t

/-- C3 witness at a concrete input: an older duplicate is discarded and a
newer one replaces in place. -/
theorem lww_existing_id_witness :
    (applyOperation commuteState
        { id := "c", value := "c", timestamp := 4, previousId := some "root",
          removed := true, author := "user1" } = commuteState) ∧
    ∃ u x t, commuteState = u ++ x :: t ∧ u.length = 1 ∧ x.id = "c" ∧
      applyOperation commuteState
          { id := "c", value := "c", timestamp := 7, previousId := some "root",
            removed := true, author := "user1" } =
        u ++
          { id := "c", value := "c", timestamp := 7, previousId := some "root",
            removed := true, author := "user1" } :: t := by
  constructor
  · exact (lww_existing_id commuteState
      { id := "c", value := "c", timestamp := 4, previousId := some "root",
        removed := true, author := "user1" } 1 (by decide)).1 (by decide)
  · exact (lww_existing_id commuteState
      { id := "c", value := "c", timestamp := 7, previousId := some "root",
        removed := true, author := "user1" } 1 (by decide)).2 (by decide)

/-- Splicing one element into a list at any index grows the length by one. -/
theorem insertSpliceLength (l : List RGANode) (x : RGANode) (j : Nat) :
    (l.take j ++ x :: l.drop j).length = l.length + 1 := by
  simp only [List.length_append, List.length_cons, List.length_take, List.length_drop]
  omega

/-- Case analysis on the merge function: it leaves the state unchanged,
replaces the first node carrying the incoming id in place, or splices the
incoming node into the list. -/
theorem applyOperation_cases (s : List RGANode) (op : RGANode) :
    applyOperation s op = s ∨
    (∃ u x t, s = u ++ x :: t ∧ x.id = op.id ∧
      applyOperation s op = u ++ op :: t) ∨
    (∃ j, applyOperation s op = s.take j ++ op :: s.drop j) := by
  cases h1 : findIdxNode (fun n => decide (n.id = op.id)) s with
  | some i =>
    obtain ⟨u, x, t, rfl, hlen, hx, hu⟩ := findIdxNode_eq_some h1
    have hgd : (u ++ x :: t).getD i default = x := by
      rw [← hlen]
      exact getDSplit u x t default
    by_cases hts : x.timestamp ≥ op.timestamp
    · left
      simp only [applyOperation, h1, hgd, if_pos hts]
    · right
      left
      refine ⟨u, x, t, rfl, by simpa using hx, ?_⟩
      simp only [applyOperation, h1, hgd, if_neg hts]
      rw [← hlen]
      exact setSplit u x op t
  | none =>
    cases h2 : findIdxNode (fun n => decide (some n.id = op.previousId)) s with
    | none =>
      left
      simp only [applyOperation, h1, h2]
    | some p =>
      right
      right
      refine ⟨p + 1 + siblingSkip op.previousId op.timestamp (s.drop (p + 1)), ?_⟩
      simp only [applyOperation, h1, h2]

/-- C7: the merge function never removes an element: the node list never
shrinks and every id present before stays present; and a delete only produces
a tombstoned copy of the targeted visible node (removed set, fresh timestamp)
which is merged like any other operation — nothing is ever erased from the
store (src/unnamed/part_001 lines 651-682, src/index.tsx lines 121-145). -/
theorem nodes_never_removed :
    (∀ s op, s.length ≤ (applyOperation s op).length) ∧
    (∀ s op n, n ∈ s → n.id ∈ (applyOperation s op).map RGANode.id) ∧
    (∀ nodes pos now un st, handleDelete nodes pos now = some (un, st) →
      un.removed = true ∧ un.timestamp = now ∧
      ∃ t, (visibleNodes nodes)[pos + 1]? = some t ∧ un.id = t.id ∧
        st = applyOperation nodes un) := by
  refine ⟨?_, ?_, ?_⟩
  · intro s op
    rcases applyOperation_cases s op with h | ⟨u, x, t, rfl, hid, h⟩ | ⟨j, h⟩
    · rw [h]
    · rw [h]
      simp
    · rw [h, insertSpliceLength]
      omega
  · intro s op n hn
    rcases applyOperation_cases s op with h | ⟨u, x, t, rfl, hid, h⟩ | ⟨j, h⟩
    · rw [h]
      exact List.mem_map_of_mem _ hn
    · rw [h]
      rcases List.mem_append.mp hn with hn | hn
      · exact List.mem_map_of_mem _ (List.mem_append_left _ hn)
      · rcases List.mem_cons.mp hn with rfl | hn
        · rw [hid]
          exact List.mem_map_of_mem _
            (List.mem_append_right _ (List.mem_cons_self _ _))
        · exact List.mem_map_of_mem _
            (List.mem_append_right _ (List.mem_cons_of_mem _ hn))
    · rw [h]
      have hn2 : n ∈ s.take j ++ s.drop j := by
        rw [List.take_append_drop]
        exact hn
      rcases List.mem_append.mp hn2 with hn2 | hn2
      · exact List.mem_map_of_mem _ (List.mem_append_left _ hn2)
      · exact List.mem_map_of_mem _
          (List.mem_append_right _ (List.mem_cons_of_mem _ hn2))
  · intro nodes pos now un st h
    cases hE : (visibleNodes nodes)[pos + 1]? with
    | none => simp [handleDelete, hE] at h
    | some target =>
      simp only [handleDelete, hE, Option.some.injEq, Prod.mk.injEq] at h
      obtain ⟨h1, h2⟩ := h
      subst h1
      subst h2
      exact ⟨rfl, rfl, target, rfl, rfl, rfl⟩

/-- C7 witness at concrete inputs: applying an operation does not shrink the
state, the root id survives, and a concrete delete yields a tombstone. -/
theorem nodes_never_removed_witness :
    commuteState.length ≤ (applyOperation commuteState commuteA).length ∧
    rootNode0.id ∈ (applyOperation commuteState commuteA).map RGANode.id ∧
    ({ id := "c", value := "c", timestamp := 99, previousId := some "root",
       removed := true, author := "user1" } : RGANode).removed = true := by
  refine ⟨nodes_never_removed.1 commuteState commuteA,
    nodes_never_removed.2.1 commuteState commuteA rootNode0 (by decide),
    (nodes_never_removed.2.2 commuteState 0 99
      { id := "c", value := "c", timestamp := 99, previousId := some "root",
        removed := true, author := "user1" }
      (applyOperation commuteState
        { id := "c", value := "c", timestamp := 99, previousId := some "root",
          removed := true, author := "user1" })
      (by decide)).1⟩

/-- C8: the causal-positioning function maps visible index 0 (the position
immediately after the root) to the root id, maps an in-range index to the id
of the corresponding visible non-root node, and falls back to the root id
when the index is past the visible sequence (src/index.tsx lines 43-49). -/
theorem findInsertPosition_spec (root : RGANode) (rest : List RGANode)
    (_hroot : root.id = "root") (hrem : root.removed = false)
    (hne : ∀ n ∈ rest, n.id ≠ "") :
    findInsertPosition 0 (root :: rest) = "root" ∧
    (∀ i, (visibleNodes rest)[i]? = none →
      findInsertPosition (i + 1) (root :: rest) = "root") ∧
    (∀ i t, (visibleNodes rest)[i]? = some t →
      findInsertPosition (i + 1) (root :: rest) = t.id) := by
  have hv : visibleNodes (root :: rest) = root :: visibleNodes rest := by
    simp [visibleNodes, List.filter_cons, hrem]
  refine ⟨by simp [findInsertPosition], ?_, ?_⟩
  · intro i hi
    simp [findInsertPosition, hv, hi]
  · intro i t ht
    have htmem : t ∈ rest := by
      have hvt : t ∈ visibleNodes rest := by
        have hlt : i < (visibleNodes rest).length := by
          by_contra hge
          rw [List.getElem?_eq_none (by omega)] at ht
          exact Option.noConfusion ht
        have := List.getElem?_eq_getElem hlt
        rw [this] at ht
        obtain rfl : (visibleNodes rest)[i] = t := Option.some.inj ht
        exact List.getElem_mem hlt
      exact List.mem_of_mem_filter hvt
    have hid : t.id ≠ "" := hne t htmem
    simp [findInsertPosition, hv, ht, hid]

/-- C8 witness at concrete inputs: index 0 resolves to the root, index 1 to
the visible node c, and the out-of-range index 2 falls back to the root. -/
theorem findInsertPosition_spec_witness :
    findInsertPosition 0 commuteState = "root" ∧
    findInsertPosition 2 commuteState = "root" ∧
    findInsertPosition 1 commuteState = "c" := by
  refine ⟨?_, ?_, ?_⟩
  · exact (findInsertPosition_spec rootNode0
      [{ id := "c", value := "c", timestamp := 5, previousId := some "root",
         removed := false, author := "user1" }]
      (by decide) (by decide) (by decide)).1
  · exact (findInsertPosition_spec rootNode0
      [{ id := "c", value := "c", timestamp := 5, previousId := some "root",
         removed := false, author := "user1" }]
      (by decide) (by decide) (by decide)).2.1 1 (by decide)
  · exact (findInsertPosition_spec rootNode0
      [{ id := "c", value := "c", timestamp := 5, previousId := some "root",
         removed := false, author := "user1" }]
      (by decide) (by decide) (by decide)).2.2 0
      { id := "c", value := "c", timestamp := 5, previousId := some "root",
        removed := false, author := "user1" } (by decide)

/-- C9 amended: an invalid visible index does not make insert refuse: the
causal positioning falls back to the root id, so a node anchored at the root
is constructed and applied, growing the state by one when the generated id is
fresh (src/index.tsx lines 43-49 and 95-119). -/
theorem invalid_index_insert_root_fallback (nodes : List RGANode)
    (value author freshId : String) (now : Nat) (position : Nat)
    (hpos : (visibleNodes nodes).length ≤ position)
    (hroot : ∃ n ∈ nodes, n.id = "root")
    (hfresh : ∀ n ∈ nodes, n.id ≠ freshId) :
    (handleInsert nodes value position author freshId now).1.previousId =
      some "root" ∧
    (handleInsert nodes value position author freshId now).2.length =
      nodes.length + 1 := by
  have hfp : findInsertPosition position nodes = "root" := by
    by_cases hz : position = 0
    · simp [findInsertPosition, hz]
    · have hnone : (visibleNodes nodes)[position]? = none :=
        List.getElem?_eq_none hpos
      simp [findInsertPosition, hz, hnone]
  have h1 : findIdxNode (fun n => decide (n.id = freshId)) nodes = none :=
    findIdxNode_eq_none.mpr (fun x hx => by simp [hfresh x hx])
  have h2ne : findIdxNode (fun n => decide (some n.id = some "root")) nodes ≠
      none := by
    intro hn
    obtain ⟨n, hnmem, hnid⟩ := hroot
    have := findIdxNode_eq_none.mp hn n hnmem
    simp [hnid] at this
  cases h2 : findIdxNode (fun n => decide (some n.id = some "root")) nodes with
  | none => exact absurd h2 h2ne
  | some p =>
    constructor
    · simp [handleInsert, hfp]
    · simp only [handleInsert, hfp, applyOperation, h1, h2]
      rw [insertSpliceLength]

/-- C9 amended witness at a concrete input: inserting at the invalid index 5
into the root-only state anchors at the root and grows the state to two
nodes. -/
theorem invalid_index_insert_root_fallback_witness :
    (handleInsert [rootNode0] "X" 5 "user1" "n1" 100).1.previousId =
      some "root" ∧
    (handleInsert [rootNode0] "X" 5 "user1" "n1" 100).2.length = 2 :=
  invalid_index_insert_root_fallback [rootNode0] "X" "user1" "n1" 100 5
    (by decide) (by decide) (by decide)

/-- Normal form of a fresh insert: with the incoming id absent and the
predecessor found as the first match (its prefix failing the test), the merge
splices the incoming node into the suffix after the predecessor, past the
sibling run counted by siblingSkip. -/
theorem applyOperation_fresh_split (u : List RGANode) (pn : RGANode)
    (t : List RGANode) (inc : RGANode)
    (hfresh : findIdxNode (fun n => decide (n.id = inc.id)) (u ++ pn :: t) = none)
    (hpn : some pn.id = inc.previousId)
    (hu : ∀ y ∈ u, decide (some y.id = inc.previousId) = false) :
    applyOperation (u ++ pn :: t) inc =
      u ++ pn :: (t.take (siblingSkip inc.previousId inc.timestamp t) ++
        inc :: t.drop (siblingSkip inc.previousId inc.timestamp t)) := by
  have h2 : findIdxNode (fun n => decide (some n.id = inc.previousId))
      (u ++ pn :: t) = some u.length :=
    findIdxNode_append_match hu (by simp [hpn]) t
  have hdrop0 : (u ++ pn :: t).drop (u.length + 1) = t := by
    have h0 : u.length + 1 = u.length + 1 + 0 := by omega
    rw [h0, dropInsertSplit]
    simp
  have htake : (u ++ pn :: t).take
      (u.length + 1 + siblingSkip inc.previousId inc.timestamp t) =
      u ++ pn :: t.take (siblingSkip inc.previousId inc.timestamp t) :=
    takeInsertSplit u pn t _
  have hdrop : (u ++ pn :: t).drop
      (u.length + 1 + siblingSkip inc.previousId inc.timestamp t) =
      t.drop (siblingSkip inc.previousId inc.timestamp t) :=
    dropInsertSplit u pn t _
  simp only [applyOperation, hfresh, h2, hdrop0, htake, hdrop]
  simp [List.append_assoc]

/-- Filtering tombstones distributes over a list split around two visible
nodes, keeping both in place. -/
theorem visible_split (X Y Z : List RGANode) (a b : RGANode)
    (hra : a.removed = false) (hrb : b.removed = false) :
    visibleNodes (X ++ a :: (Y ++ b :: Z)) =
      visibleNodes X ++ a :: (visibleNodes Y ++ b :: visibleNodes Z) := by
  simp [visibleNodes, List.filter_append, List.filter_cons, hra, hrb]

/-- Delivery order a then b for two fresh sibling inserts with
a.timestamp < b.timestamp: the merged list splits as prefix, a, middle, b,
suffix. -/
theorem tiebreak_ab (u : List RGANode) (pn : RGANode) (t : List RGANode)
    (a b : RGANode)
    (hfa : ∀ n ∈ u ++ pn :: t, n.id ≠ a.id)
    (hfb : ∀ n ∈ u ++ pn :: t, n.id ≠ b.id)
    (hab : a.id ≠ b.id)
    (hprev : b.previousId = a.previousId)
    (hpn : some pn.id = a.previousId)
    (hu : ∀ y ∈ u, decide (some y.id = a.previousId) = false)
    (hts : a.timestamp < b.timestamp) :
    applyOperation (applyOperation (u ++ pn :: t) a) b =
      u ++ pn :: (t.take (siblingSkip a.previousId a.timestamp t) ++
        a :: ((t.drop (siblingSkip a.previousId a.timestamp t)).take
            (siblingSkip b.previousId b.timestamp
              (t.drop (siblingSkip a.previousId a.timestamp t))) ++
          b :: (t.drop (siblingSkip a.previousId a.timestamp t)).drop
            (siblingSkip b.previousId b.timestamp
              (t.drop (siblingSkip a.previousId a.timestamp t))))) := by
  set ka := siblingSkip a.previousId a.timestamp t with hka
  set m := siblingSkip b.previousId b.timestamp (t.drop ka) with hm
  have hka_le : ka ≤ t.length := by
    rw [hka]
    exact siblingSkip_le _ _ _
  have hlka : (t.take ka).length = ka := by
    rw [List.length_take]
    omega
  have F1 : ∀ x ∈ t.take ka, x.previousId = a.previousId ∧
      x.timestamp < a.timestamp := by
    rw [hka]
    exact siblingSkip_take _ _ _
  have F1b : ∀ x ∈ t.take ka, x.previousId = b.previousId ∧
      x.timestamp < b.timestamp :=
    fun x hx => ⟨(F1 x hx).1.trans hprev.symm, lt_trans (F1 x hx).2 hts⟩
  have hfreshA : findIdxNode (fun n => decide (n.id = a.id)) (u ++ pn :: t) =
      none :=
    findIdxNode_eq_none.mpr (fun x hx => by simp [hfa x hx])
  have hA : applyOperation (u ++ pn :: t) a =
      u ++ pn :: (t.take ka ++ a :: t.drop ka) := by
    rw [hka]
    exact applyOperation_fresh_split u pn t a hfreshA hpn hu
  have hmemT1 : ∀ y ∈ u ++ pn :: (t.take ka ++ a :: t.drop ka), y.id ≠ b.id := by
    intro y hy
    rcases List.mem_append.mp hy with hy | hy
    · exact hfb y (List.mem_append_left _ hy)
    · rcases List.mem_cons.mp hy with rfl | hy
      · exact hfb _ (List.mem_append_right _ (List.mem_cons_self _ _))
      · rcases List.mem_append.mp hy with hy | hy
        · exact hfb y (List.mem_append_right _
            (List.mem_cons_of_mem _ (List.take_subset _ _ hy)))
        · rcases List.mem_cons.mp hy with rfl | hy
          · exact hab
          · exact hfb y (List.mem_append_right _
              (List.mem_cons_of_mem _ (List.drop_subset _ _ hy)))
  have hfreshB1 : findIdxNode (fun n => decide (n.id = b.id))
      (u ++ pn :: (t.take ka ++ a :: t.drop ka)) = none :=
    findIdxNode_eq_none.mpr (fun x hx => by simp [hmemT1 x hx])
  have hub : ∀ y ∈ u, decide (some y.id = b.previousId) = false := by
    intro y hy
    rw [hprev]
    exact hu y hy
  have hpnb : some pn.id = b.previousId := by
    rw [hprev]
    exact hpn
  have hB := applyOperation_fresh_split u pn (t.take ka ++ a :: t.drop ka) b
    hfreshB1 hpnb hub
  have hkb1 : siblingSkip b.previousId b.timestamp
      (t.take ka ++ a :: t.drop ka) = ka + 1 + m := by
    rw [siblingSkip_append b.previousId b.timestamp F1b,
      siblingSkip_cons_pass ⟨hprev.symm, hts⟩, hlka]
    omega
  have hT1take : (t.take ka ++ a :: t.drop ka).take (ka + 1 + m) =
      t.take ka ++ a :: (t.drop ka).take m := by
    have h0 := takeInsertSplit (t.take ka) a (t.drop ka) m
    rw [hlka] at h0
    exact h0
  have hT1drop : (t.take ka ++ a :: t.drop ka).drop (ka + 1 + m) =
      (t.drop ka).drop m := by
    have h0 := dropInsertSplit (t.take ka) a (t.drop ka) m
    rw [hlka] at h0
    exact h0
  rw [hA, hB, hkb1, hT1take, hT1drop]
  simp [List.append_assoc]

/-- Delivery order b then a for two fresh sibling inserts with
a.timestamp < b.timestamp: the merged list splits the same way, a before b. -/
theorem tiebreak_ba (u : List RGANode) (pn : RGANode) (t : List RGANode)
    (a b : RGANode)
    (hfa : ∀ n ∈ u ++ pn :: t, n.id ≠ a.id)
    (hfb : ∀ n ∈ u ++ pn :: t, n.id ≠ b.id)
    (hab : a.id ≠ b.id)
    (hprev : b.previousId = a.previousId)
    (hpn : some pn.id = a.previousId)
    (hu : ∀ y ∈ u, decide (some y.id = a.previousId) = false)
    (hts : a.timestamp < b.timestamp) :
    applyOperation (applyOperation (u ++ pn :: t) b) a =
      u ++ pn :: (t.take (siblingSkip a.previousId a.timestamp t) ++
        a :: ((t.drop (siblingSkip a.previousId a.timestamp t)).take
            (siblingSkip b.previousId b.timestamp
              (t.drop (siblingSkip a.previousId a.timestamp t))) ++
          b :: (t.drop (siblingSkip a.previousId a.timestamp t)).drop
            (siblingSkip b.previousId b.timestamp
              (t.drop (siblingSkip a.previousId a.timestamp t))))) := by
  set ka := siblingSkip a.previousId a.timestamp t with hka
  set m := siblingSkip b.previousId b.timestamp (t.drop ka) with hm
  have hka_le : ka ≤ t.length := by
    rw [hka]
    exact siblingSkip_le _ _ _
  have hlka : (t.take ka).length = ka := by
    rw [List.length_take]
    omega
  have F1 : ∀ x ∈ t.take ka, x.previousId = a.previousId ∧
      x.timestamp < a.timestamp := by
    rw [hka]
    exact siblingSkip_take _ _ _
  have F1b : ∀ x ∈ t.take ka, x.previousId = b.previousId ∧
      x.timestamp < b.timestamp :=
    fun x hx => ⟨(F1 x hx).1.trans hprev.symm, lt_trans (F1 x hx).2 hts⟩
  have hub : ∀ y ∈ u, decide (some y.id = b.previousId) = false := by
    intro y hy
    rw [hprev]
    exact hu y hy
  have hpnb : some pn.id = b.previousId := by
    rw [hprev]
    exact hpn
  have hbfail : ¬(b.previousId = a.previousId ∧ b.timestamp < a.timestamp) :=
    fun h => absurd h.2 (by omega)
  have hkb : siblingSkip b.previousId b.timestamp t = ka + m := by
    conv_lhs => rw [← List.take_append_drop ka t]
    rw [siblingSkip_append b.previousId b.timestamp F1b, hlka]
  have hfreshB : findIdxNode (fun n => decide (n.id = b.id)) (u ++ pn :: t) =
      none :=
    findIdxNode_eq_none.mpr (fun x hx => by simp [hfb x hx])
  have hB : applyOperation (u ++ pn :: t) b =
      u ++ pn :: (t.take (ka + m) ++ b :: t.drop (ka + m)) := by
    have h0 := applyOperation_fresh_split u pn t b hfreshB hpnb hub
    rw [hkb] at h0
    exact h0
  have hsplit2 : t.take (ka + m) = t.take ka ++ (t.drop ka).take m :=
    List.take_add t ka m
  have hdropsum : t.drop (ka + m) = (t.drop ka).drop m :=
    (List.drop_drop m ka t).symm
  have hmem2 : ∀ y ∈ u ++ pn :: (t.take (ka + m) ++ b :: t.drop (ka + m)),
      y.id ≠ a.id := by
    intro y hy
    rcases List.mem_append.mp hy with hy | hy
    · exact hfa y (List.mem_append_left _ hy)
    · rcases List.mem_cons.mp hy with rfl | hy
      · exact hfa _ (List.mem_append_right _ (List.mem_cons_self _ _))
      · rcases List.mem_append.mp hy with hy | hy
        · exact hfa y (List.mem_append_right _
            (List.mem_cons_of_mem _ (List.take_subset _ _ hy)))
        · rcases List.mem_cons.mp hy with rfl | hy
          · exact fun h => hab h.symm
          · exact hfa y (List.mem_append_right _
              (List.mem_cons_of_mem _ (List.drop_subset _ _ hy)))
  have hfreshA2 : findIdxNode (fun n => decide (n.id = a.id))
      (u ++ pn :: (t.take (ka + m) ++ b :: t.drop (ka + m))) = none :=
    findIdxNode_eq_none.mpr (fun x hx => by simp [hmem2 x hx])
  have hA2 := applyOperation_fresh_split u pn
    (t.take (ka + m) ++ b :: t.drop (ka + m)) a hfreshA2 hpn hu
  have hz : siblingSkip a.previousId a.timestamp
      ((t.drop ka).take m ++ b :: t.drop (ka + m)) = 0 := by
    cases hdk : t.drop ka with
    | nil =>
      simp only [List.take_nil, List.nil_append]
      exact siblingSkip_cons_fail hbfail _
    | cons c r =>
      cases m with
      | zero =>
        simp only [List.take_zero, List.nil_append]
        exact siblingSkip_cons_fail hbfail _
      | succ m0 =>
        have hcfail : ¬(c.previousId = a.previousId ∧
            c.timestamp < a.timestamp) := by
          rcases siblingSkip_stop a.previousId a.timestamp t with hstop |
            ⟨c0, r0, hcr, hfail⟩
          · rw [← hka, hdk] at hstop
            exact absurd hstop (by simp)
          · rw [← hka, hdk] at hcr
            obtain ⟨rfl, rfl⟩ : c0 = c ∧ r0 = r := by
              constructor
              · exact (List.cons.inj hcr.symm).1
              · exact (List.cons.inj hcr.symm).2
            exact hfail
        simp only [List.take_succ_cons, List.cons_append]
        exact siblingSkip_cons_fail hcfail _
  have hka2 : siblingSkip a.previousId a.timestamp
      (t.take (ka + m) ++ b :: t.drop (ka + m)) = ka := by
    rw [hsplit2, List.append_assoc,
      siblingSkip_append a.previousId a.timestamp F1, hlka, hz]
    omega
  have hT2take : (t.take (ka + m) ++ b :: t.drop (ka + m)).take ka =
      t.take ka := by
    rw [hsplit2, List.append_assoc]
    have h0 := List.take_left (t.take ka)
      ((t.drop ka).take m ++ b :: t.drop (ka + m))
    rw [hlka] at h0
    exact h0
  have hT2drop : (t.take (ka + m) ++ b :: t.drop (ka + m)).drop ka =
      (t.drop ka).take m ++ b :: t.drop (ka + m) := by
    rw [hsplit2, List.append_assoc]
    have h0 := List.drop_left (t.take ka)
      ((t.drop ka).take m ++ b :: t.drop (ka + m))
    rw [hlka] at h0
    exact h0
  rw [hB, hA2, hka2, hT2take, hT2drop, hdropsum]

/-- Packaging: the visible sequence of a state split around two visible
nodes a then b keeps a before b. -/
theorem visible_shape (u : List RGANode) (pn a b : RGANode)
    (T Y Z : List RGANode)
    (hra : a.removed = false) (hrb : b.removed = false) :
    ∃ l1 l2 l3, visibleNodes (u ++ pn :: (T ++ a :: (Y ++ b :: Z))) =
      l1 ++ a :: (l2 ++ b :: l3) := by
  refine ⟨visibleNodes (u ++ pn :: T), visibleNodes Y, visibleNodes Z, ?_⟩
  have h0 : u ++ pn :: (T ++ a :: (Y ++ b :: Z)) =
      (u ++ pn :: T) ++ a :: (Y ++ b :: Z) := by
    simp [List.append_assoc]
  rw [h0, visible_split _ _ _ a b hra hrb]

/-- C2: a fresh insert whose previousId resolves at index p is placed at
index p+1 advanced past exactly the contiguous run of nodes sharing its
previousId with strictly smaller timestamps (every passed node satisfies the
run condition and the scan stops at the end or at the first node breaking
it); consequently two fresh inserts with the same previousId and timestamps
T1 < T2, delivered in either order, leave T1's node before T2's node in the
visible sequence (src/unnamed/part_001 lines 663-682). -/
theorem insert_position_and_sibling_tiebreak :
    (∀ s inc p, (∀ n ∈ s, n.id ≠ inc.id) →
      findIdxNode (fun n => decide (some n.id = inc.previousId)) s = some p →
      applyOperation s inc =
        s.take (p + 1 + siblingSkip inc.previousId inc.timestamp
            (s.drop (p + 1))) ++
          inc :: s.drop (p + 1 + siblingSkip inc.previousId inc.timestamp
            (s.drop (p + 1))) ∧
      (∀ x ∈ (s.drop (p + 1)).take
          (siblingSkip inc.previousId inc.timestamp (s.drop (p + 1))),
        x.previousId = inc.previousId ∧ x.timestamp < inc.timestamp) ∧
      ((s.drop (p + 1)).drop
          (siblingSkip inc.previousId inc.timestamp (s.drop (p + 1))) = [] ∨
        ∃ c r, (s.drop (p + 1)).drop
            (siblingSkip inc.previousId inc.timestamp (s.drop (p + 1))) =
              c :: r ∧
          ¬(c.previousId = inc.previousId ∧ c.timestamp < inc.timestamp))) ∧
    (∀ s a b p, (∀ n ∈ s, n.id ≠ a.id) → (∀ n ∈ s, n.id ≠ b.id) →
      a.id ≠ b.id → b.previousId = a.previousId →
      findIdxNode (fun n => decide (some n.id = a.previousId)) s = some p →
      a.timestamp < b.timestamp → a.removed = false → b.removed = false →
      (∃ l1 l2 l3, visibleNodes (applyOperation (applyOperation s a) b) =
        l1 ++ a :: (l2 ++ b :: l3)) ∧
      (∃ l1 l2 l3, visibleNodes (applyOperation (applyOperation s b) a) =
        l1 ++ a :: (l2 ++ b :: l3))) := by
  constructor
  · intro s inc p hfresh hp
    have h1 : findIdxNode (fun n => decide (n.id = inc.id)) s = none :=
      findIdxNode_eq_none.mpr (fun x hx => by simp [hfresh x hx])
    refine ⟨?_, siblingSkip_take _ _ _, siblingSkip_stop _ _ _⟩
    simp only [applyOperation, h1, hp]
  · intro s a b p hfa hfb hab hprev hp hts hra hrb
    obtain ⟨u, pn, t, rfl, hlen, hpnb0, hub⟩ := findIdxNode_eq_some hp
    have hpn : some pn.id = a.previousId := of_decide_eq_true hpnb0
    constructor
    · rw [tiebreak_ab u pn t a b hfa hfb hab hprev hpn hub hts]
      exact visible_shape u pn a b _ _ _ hra hrb
    · rw [tiebreak_ba u pn t a b hfa hfb hab hprev hpn hub hts]
      exact visible_shape u pn a b _ _ _ hra hrb

/-- C2 witness at concrete inputs: two fresh inserts after the root with
timestamps 1 and 2 end up in timestamp order in either delivery order. -/
theorem insert_position_and_sibling_tiebreak_witness :
    (∃ l1 l2 l3, visibleNodes (applyOperation (applyOperation [rootNode0]
        { id := "a", value := "1", timestamp := 1, previousId := some "root",
          removed := false, author := "user1" })
        { id := "b", value := "2", timestamp := 2, previousId := some "root",
          removed := false, author := "user2" }) =
      l1 ++ { id := "a", value := "1", timestamp := 1,
              previousId := some "root", removed := false,
              author := "user1" } ::
        (l2 ++ { id := "b", value := "2", timestamp := 2,
                 previousId := some "root", removed := false,
                 author := "user2" } :: l3)) ∧
    (∃ l1 l2 l3, visibleNodes (applyOperation (applyOperation [rootNode0]
        { id := "b", value := "2", timestamp := 2, previousId := some "root",
          removed := false, author := "user2" })
        { id := "a", value := "1", timestamp := 1, previousId := some "root",
          removed := false, author := "user1" }) =
      l1 ++ { id := "a", value := "1", timestamp := 1,
              previousId := some "root", removed := false,
              author := "user1" } ::
        (l2 ++ { id := "b", value := "2", timestamp := 2,
                 previousId := some "root", removed := false,
                 author := "user2" } :: l3)) :=
  insert_position_and_sibling_tiebreak.2 [rootNode0]
    { id := "a", value := "1", timestamp := 1, previousId := some "root",
      removed := false, author := "user1" }
    { id := "b", value := "2", timestamp := 2, previousId := some "root",
      removed := false, author := "user2" } 0
    (by decide) (by decide) (by decide) (by decide) (by decide) (by decide)
    (by decide) (by decide)
